import Mathlib

/-!
Verification of `checkota.py` (google-ota-prober).

Shallow embedding conventions:
* Python strings are `List Char`; Python `bytes` are `List Nat` (byte values).
* Python dictionaries with string keys are association lists
  `List (List Char × α)`; assignment `d[k] = v` is `dictSet` (replace in
  place, append when absent, as for Python dicts whose keys are unique).
* `None`-able Python values are `Option`/`PyVal.none`.
* Regular-expression substitutions from the source are implemented as
  deterministic scanners that reproduce the leftmost, non-overlapping
  match semantics of the concrete patterns used by the source
  (the patterns contain no genuinely backtracking alternatives; this is
  argued case by case in the doc comments).
* `\w`, `\s` and `str.strip` character classes are modelled over ASCII,
  which covers every character appearing in the concrete inputs used below.
-/

/-- Python whitespace class (`\s`, `str.strip`/`str.rstrip` default),
restricted to ASCII: space, tab, newline, carriage return, vertical tab,
form feed. -/
def pyIsSpace (c : Char) : Bool :=
  c == ' ' || c == '\t' || c == '\n' || c == '\r' || c == Char.ofNat 11 || c == Char.ofNat 12

/-- Python word-character class (`\w`), restricted to ASCII. -/
def isWordChar (c : Char) : Bool := c.isAlpha || c.isDigit || c == '_'

/-- Python `str.rstrip()` (no argument): drop trailing whitespace. -/
def rstrip (s : List Char) : List Char :=
  (s.reverse.dropWhile pyIsSpace).reverse

/-- Python `str.strip()` (no argument): drop leading and trailing whitespace. -/
def pyStrip (s : List Char) : List Char :=
  ((s.dropWhile pyIsSpace).reverse.dropWhile pyIsSpace).reverse

theorem length_dropWhile_le (p : α → Bool) (l : List α) :
    (l.dropWhile p).length ≤ l.length := by
  induction l with
  | nil => simp [List.dropWhile]
  | cons a t ih =>
    by_cases h : p a
    · simp [List.dropWhile, h]
      omega
    · simp [List.dropWhile, h]

/-- A Python value stored in the `update_info` dictionary of
`UpdateChecker._parse_response` (checkota.py lines 334-342): `None`, a
string, or a boolean. -/
inductive PyVal where
  | none : PyVal
  | str : List Char → PyVal
  | bool : Bool → PyVal
deriving DecidableEq

/-- Python dictionary assignment `d[k] = v` for a string-keyed dict with
unique keys: replace the value in place if the key is present, append the
pair otherwise. -/
def dictSet {α : Type} : List (List Char × α) → List Char → α → List (List Char × α)
  | [], k, v => [(k, v)]
  | p :: rest, k, v => if p.1 == k then (k, v) :: rest else p :: dictSet rest k v

/-- Python dictionary lookup `d[k]` / `d.get(k)`. -/
def dGet {α : Type} : List (List Char × α) → List Char → Option α
  | [], _ => none
  | p :: rest, k => if p.1 == k then some p.2 else dGet rest k

/-- Python membership test `k in d` for a dictionary. -/
def dContains {α : Type} (d : List (List Char × α)) (k : List Char) : Bool :=
  (dGet d k).isSome

/-- Decode one UTF-8 scalar from the front of a byte sequence, exactly as
strict UTF-8 (Python `bytes.decode('utf-8')`): rejects continuation
errors, overlong forms, surrogates and values above `0x10FFFF`. Returns
the code point and the remaining bytes. -/
def utf8DecodeOne : List Nat → Option (Nat × List Nat)
  | [] => none
  | b1 :: r1 =>
    if b1 < 0x80 then some (b1, r1)
    else if 0xC2 ≤ b1 && b1 ≤ 0xDF then
      match r1 with
      | b2 :: r2 =>
        if 0x80 ≤ b2 && b2 ≤ 0xBF then some ((b1 - 0xC0) * 64 + (b2 - 0x80), r2) else none
      | [] => none
    else if 0xE0 ≤ b1 && b1 ≤ 0xEF then
      match r1 with
      | b2 :: b3 :: r3 =>
        if (if b1 = 0xE0 then 0xA0 ≤ b2 && b2 ≤ 0xBF
            else if b1 = 0xED then 0x80 ≤ b2 && b2 ≤ 0x9F
            else 0x80 ≤ b2 && b2 ≤ 0xBF) && (0x80 ≤ b3 && b3 ≤ 0xBF) then
          some ((b1 - 0xE0) * 4096 + (b2 - 0x80) * 64 + (b3 - 0x80), r3)
        else none
      | _ => none
    else if 0xF0 ≤ b1 && b1 ≤ 0xF4 then
      match r1 with
      | b2 :: b3 :: b4 :: r4 =>
        if (if b1 = 0xF0 then 0x90 ≤ b2 && b2 ≤ 0xBF
            else if b1 = 0xF4 then 0x80 ≤ b2 && b2 ≤ 0x8F
            else 0x80 ≤ b2 && b2 ≤ 0xBF) && (0x80 ≤ b3 && b3 ≤ 0xBF) && (0x80 ≤ b4 && b4 ≤ 0xBF) then
          some ((b1 - 0xF0) * 262144 + (b2 - 0x80) * 4096 + (b3 - 0x80) * 64 + (b4 - 0x80), r4)
        else none
      | _ => none
    else none

theorem utf8DecodeOne_length {l rest : List Nat} {c : Nat}
    (h : utf8DecodeOne l = some (c, rest)) : rest.length < l.length := by
  rcases l with _ | ⟨b1, r1⟩
  · simp [utf8DecodeOne] at h
  · simp only [utf8DecodeOne] at h
    repeat' split at h
    all_goals simp_all
    all_goals omega

/-- Python `bytes.decode('utf-8')`: decode the whole byte sequence, or
fail (the source catches the corresponding `UnicodeDecodeError`). -/
def utf8Decode (l : List Nat) : Option (List Char) :=
  if l.isEmpty then some []
  else if h : (utf8DecodeOne l).isSome then
    (utf8Decode ((utf8DecodeOne l).get h).2).map
      (fun cs => Char.ofNat ((utf8DecodeOne l).get h).1 :: cs)
  else none
termination_by l.length
decreasing_by exact utf8DecodeOne_length (Option.some_get h).symm

/-- Byte string of an ASCII string literal (its UTF-8 encoding). -/
def asciiBytes (s : String) : List Nat := s.data.map Char.toNat

/-- Python `needle in haystack` for `bytes`: contiguous-substring test. -/
def bytesContains (hay pat : List Nat) : Bool :=
  if pat.isPrefixOf hay then true
  else
    match hay with
    | [] => false
    | _ :: t => bytesContains t pat

/-- Device configuration (checkota.py lines 61-70): seven string fields. -/
structure Config where
  build_tag : List Char
  incremental : List Char
  android_version : List Char
  model : List Char
  device : List Char
  oem : List Char
  product : List Char

/-- `Config.get_fingerprint` (checkota.py lines 88-92): the f-string
`f'{oem}/{product}/{device}:{android_version}/{build_tag}/{incremental}:user/release-keys'`. -/
def Config.get_fingerprint (c : Config) : List Char :=
  c.oem ++ '/' :: c.product ++ '/' :: c.device ++ ':' :: c.android_version
    ++ '/' :: c.build_tag ++ '/' :: c.incremental ++ ':' :: ("user/release-keys").data

namespace TelegramNotifier

/-- `TelegramNotifier.MAX_MESSAGE_LENGTH` (checkota.py line 99). -/
def MAX_MESSAGE_LENGTH : Nat := 4000

/-- The separator `'\n\n'` used by `message.split('\n\n')`. -/
def sepNl : List Char := ['\n', '\n']

/-- Python `message.split('\n\n')` (checkota.py line 124): split on
non-overlapping occurrences of the two-character separator, scanning left
to right. -/
def splitBlocks : List Char → List (List Char)
  | [] => [[]]
  | [c] => [[c]]
  | c1 :: c2 :: rest =>
    if c1 = '\n' ∧ c2 = '\n' then [] :: splitBlocks rest
    else
      match splitBlocks (c2 :: rest) with
      | [] => [[c1]]
      | b :: bs => (c1 :: b) :: bs

/-- The greedy block-packing loop of `_split_message`
(checkota.py lines 126-137), carrying the `parts` and `current_part`
state; the base case is the trailing `if current_part: parts.append(...)`. -/
def packBlocks (limit : Nat) : List (List Char) → List (List Char) → List Char → List (List Char)
  | [], parts, current => if current.isEmpty then parts else parts ++ [rstrip current]
  | b :: bs, parts, current =>
    if limit < (current ++ b ++ sepNl).length then
      packBlocks limit bs (if current.isEmpty then parts else parts ++ [rstrip current]) (b ++ sepNl)
    else
      packBlocks limit bs parts (current ++ b ++ sepNl)

/-- The `parts` list of `_split_message` just before the tag-balance pass
(checkota.py lines 120-137). -/
def packedParts (limit : Nat) (message : List Char) : List (List Char) :=
  packBlocks limit (splitBlocks message) [] []

/-- `re.findall(r'<(\w+)[^>]*>', part)` (checkota.py line 145): the group
of each non-overlapping leftmost match.  At a `<`, the greedy `\w+` takes
the maximal word run (which must be non-empty) and `[^>]*` then runs to
the first later `>` (backtracking cannot produce any other outcome since
`[^>]*` can never end before a non-`>` character); if there is no later
`>` the scan advances one character. -/
def findOpenTags : List Char → List (List Char)
  | [] => []
  | c :: rest =>
    if c = '<' then
      let w := rest.takeWhile isWordChar
      let r2 := (rest.dropWhile isWordChar).dropWhile (fun d => !(d == '>'))
      if w.isEmpty || r2.isEmpty then findOpenTags rest
      else w :: findOpenTags r2.tail
    else findOpenTags rest
termination_by l => l.length
decreasing_by
  · simp
  · rename_i h
    have h1 : ((rest.dropWhile isWordChar).dropWhile (fun d => !(d == '>'))).length ≤ rest.length :=
      le_trans (length_dropWhile_le _ _) (length_dropWhile_le _ _)
    simp only [Bool.or_eq_true, not_or, List.isEmpty_iff] at h
    have h2 : 0 < ((rest.dropWhile isWordChar).dropWhile (fun d => !(d == '>'))).length :=
      List.length_pos.mpr h.2
    have h3 := List.length_tail ((rest.dropWhile isWordChar).dropWhile (fun d => !(d == '>')))
    simp only [List.length_cons]
    omega
  · simp

/-- `re.findall(r'</(\w+)>', part)` (checkota.py line 146): the group of
each non-overlapping leftmost match; at `</` a non-empty word run must be
followed immediately by `>`, otherwise the scan advances one character. -/
def findCloseTags : List Char → List (List Char)
  | [] => []
  | [_] => []
  | c1 :: c2 :: rest =>
    if c1 = '<' ∧ c2 = '/' then
      let w := rest.takeWhile isWordChar
      let r2 := rest.dropWhile isWordChar
      if (!w.isEmpty) && r2.head? == some '>' then w :: findCloseTags r2.tail
      else findCloseTags (c2 :: rest)
    else findCloseTags (c2 :: rest)
termination_by l => l.length
decreasing_by
  · rename_i h
    have h1 : (rest.dropWhile isWordChar).length ≤ rest.length := length_dropWhile_le _ _
    simp only [Bool.and_eq_true, Bool.not_eq_eq_eq_not, Bool.not_true, List.isEmpty_eq_false,
      beq_iff_eq] at h
    have h4 : (rest.dropWhile isWordChar).head? = some '>' := h.2
    have h2 : 0 < (rest.dropWhile isWordChar).length := by
      cases hh : rest.dropWhile isWordChar with
      | nil =>
        rw [hh] at h4
        simp at h4
      | cons a t => simp [hh]
    have h3 := List.length_tail (rest.dropWhile isWordChar)
    simp only [List.length_cons]
    omega
  · simp
  · simp

/-- `f'<{tag}>'` (checkota.py line 163). -/
def openTagStr (t : List Char) : List Char := '<' :: t ++ ['>']

/-- `f'</{tag}>'` (checkota.py line 160). -/
def closeTagStr (t : List Char) : List Char := '<' :: '/' :: t ++ ['>']

/-- The `open_tags` bookkeeping of the tag-balance pass
(checkota.py lines 148-154): append every opening-tag name of the part
that does not occur among the part's closing-tag names, then remove (first
occurrence, when present) every closing-tag name. -/
def updateOpenTags (openTags tags closeTags : List (List Char)) : List (List Char) :=
  closeTags.foldl (fun o t => o.erase t)
    (openTags ++ tags.filter (fun t => !closeTags.contains t))

/-- The tag-balance pass of `_split_message` (checkota.py lines 139-167):
for each non-final part, close every tag recorded as still open (in
reverse order) and prepend re-opening tags to the next part (which is then
itself rescanned when the loop reaches it). -/
def tagLoop (openTags : List (List Char)) : List (List Char) → List (List Char)
  | [] => []
  | [part] => [part]
  | part :: next :: rest =>
    let o := updateOpenTags openTags (findOpenTags part) (findCloseTags part)
    (part ++ (o.reverse.map closeTagStr).flatten) ::
      tagLoop o (((o.map openTagStr).flatten ++ next) :: rest)
termination_by l => l.length
decreasing_by simp

/-- `TelegramNotifier._split_message` (checkota.py lines 108-167). -/
def split_message (message : List Char) : List (List Char) :=
  if message.length ≤ MAX_MESSAGE_LENGTH then [message]
  else tagLoop [] (packedParts MAX_MESSAGE_LENGTH message)

end TelegramNotifier

namespace UpdateChecker

/-- `re.sub(r'\n', '', text)` (checkota.py line 388): delete every newline. -/
def subNewlines (s : List Char) : List Char := s.filter (fun c => !(c == '\n'))

/-- Matcher for `<br\s*/?>` with `re.IGNORECASE` (checkota.py line 389),
positioned just after the `<`: `b`/`B`, `r`/`R`, a maximal whitespace run,
an optional `/`, then `>`.  Backtracking cannot yield any other match:
a shorter `\s*` leaves a whitespace character where `/?>` requires `/` or
`>`.  Returns the remainder after the match. -/
def matchBr : List Char → Option (List Char)
  | b :: r :: rest =>
    if (b == 'b' || b == 'B') && (r == 'r' || r == 'R') then
      let d := rest.dropWhile pyIsSpace
      if d.take 2 == ['/', '>'] then some (d.drop 2)
      else if d.take 1 == ['>'] then some (d.drop 1)
      else none
    else none
  | _ => none

theorem matchBr_length {l after : List Char} (h : matchBr l = some after) :
    after.length < l.length := by
  match l with
  | [] => simp [matchBr] at h
  | [b] => simp [matchBr] at h
  | b :: r :: rest =>
    have hd : (rest.dropWhile pyIsSpace).length ≤ rest.length := length_dropWhile_le _ _
    have h2 := List.length_drop 2 (rest.dropWhile pyIsSpace)
    have h1 := List.length_drop 1 (rest.dropWhile pyIsSpace)
    simp only [matchBr] at h
    split at h
    · split at h
      · simp only [Option.some_inj] at h
        subst h
        simp only [List.length_cons]
        omega
      · split at h
        · simp only [Option.some_inj] at h
          subst h
          simp only [List.length_cons]
          omega
        · simp at h
    · simp at h

/-- `re.sub(r'<br\s*/?>', '\n', text, flags=re.IGNORECASE)`
(checkota.py line 389): leftmost, non-overlapping replacement by `'\n'`. -/
def subBr : List Char → List Char
  | [] => []
  | c :: rest =>
    if c = '<' then
      if h : (matchBr rest).isSome then '\n' :: subBr ((matchBr rest).get h)
      else c :: subBr rest
    else c :: subBr rest
termination_by l => l.length
decreasing_by
  · have := matchBr_length (Option.some_get h).symm
    simp only [List.length_cons]
    omega
  · simp
  · simp

/-- `re.sub(r'<[^>]*>', '', text)` (checkota.py line 390): at each `<`,
greedy `[^>]*` runs to the first later `>` (no other outcome is possible);
the whole span through that `>` is deleted.  Without a later `>` there is
no match at this position and the scan advances one character. -/
def subTags : List Char → List Char
  | [] => []
  | c :: rest =>
    if c = '<' then
      let d := rest.dropWhile (fun x => !(x == '>'))
      if d.isEmpty then c :: subTags rest
      else subTags d.tail
    else c :: subTags rest
termination_by l => l.length
decreasing_by
  · simp
  · rename_i hne
    have h1 : (rest.dropWhile (fun x => !(x == '>'))).length ≤ rest.length :=
      length_dropWhile_le _ _
    have h2 : 0 < (rest.dropWhile (fun x => !(x == '>'))).length := by
      have hx : ¬((rest.dropWhile (fun x => !(x == '>'))).isEmpty = true) := hne
      rw [List.isEmpty_iff] at hx
      exact List.length_pos.mpr hx
    have h3 := List.length_tail (rest.dropWhile (fun x => !(x == '>')))
    simp only [List.length_cons]
    omega
  · simp

/-- The tail of `http[s]?://` inside the pattern of checkota.py line 391:
optional `s` (greedy, but a failed `://` after `s` cannot be repaired by
dropping the `s`, since the next character would have to be both `s` and
`:`), then `://`.  Returns the remainder. -/
def matchHttpTail : List Char → Option (List Char)
  | 's' :: ':' :: '/' :: '/' :: r => some r
  | ':' :: '/' :: '/' :: r => some r
  | _ => none

theorem matchHttpTail_length {l r : List Char} (h : matchHttpTail l = some r) :
    r.length + 3 ≤ l.length := by
  unfold matchHttpTail at h
  split at h <;> simp_all <;> omega

/-- The tail of the matcher for `\s*\(http[s]?://\S+\)?`
(checkota.py line 391), applied to the result of `matchHttpTail`:
a non-empty maximal run of non-whitespace characters (`\S+`); the
trailing `\)?` always matches the empty string because the greedy `\S+`
already swallowed any `)` (a `)` is itself non-whitespace).  Returns the
remainder after the match. -/
def matchUrlParenFinish : Option (List Char) → Option (List Char)
  | none => none
  | some r3 =>
    if (r3.takeWhile (fun c => !(pyIsSpace c))).isEmpty then none
    else some (r3.dropWhile (fun c => !(pyIsSpace c)))

/-- Matcher for `\s*\(http[s]?://\S+\)?` (checkota.py line 391) at the
current position: a maximal whitespace run, `(http`, then the rest of the
pattern via `matchHttpTail` and `matchUrlParenFinish`. -/
def matchUrlParen (l : List Char) : Option (List Char) :=
  let d := l.dropWhile pyIsSpace
  if d.take 5 == ['(', 'h', 't', 't', 'p'] then matchUrlParenFinish (matchHttpTail (d.drop 5))
  else none

theorem matchUrlParen_length {l after : List Char} (h : matchUrlParen l = some after) :
    after.length < l.length := by
  have hd : (l.dropWhile pyIsSpace).length ≤ l.length := length_dropWhile_le _ _
  simp only [matchUrlParen] at h
  split at h
  · rename_i htake
    rcases hh : matchHttpTail ((l.dropWhile pyIsSpace).drop 5) with _ | r3
    · rw [hh] at h
      simp [matchUrlParenFinish] at h
    · rw [hh] at h
      have h3 := matchHttpTail_length hh
      have h5 := List.length_drop 5 (l.dropWhile pyIsSpace)
      have h6 : (l.dropWhile pyIsSpace).take 5 = ['(', 'h', 't', 't', 'p'] := by
        simpa using htake
      have h7 : 5 ≤ (l.dropWhile pyIsSpace).length := by
        have := congrArg List.length h6
        simp only [List.length_take] at this
        simp at this
        omega
      simp only [matchUrlParenFinish] at h
      split at h
      · simp at h
      · simp only [Option.some_inj] at h
        have h8 : (r3.dropWhile (fun c => !(pyIsSpace c))).length ≤ r3.length :=
          length_dropWhile_le _ _
        subst h
        omega
  · simp at h

/-- `re.sub(r'\s*\(http[s]?://\S+\)?', '', text)` (checkota.py line 391):
leftmost, non-overlapping deletion.  Trying the matcher at every position
in order realises the leftmost rule: a successful match starting inside a
whitespace run is found first at the start of that run. -/
def subUrlParen : List Char → List Char
  | [] => []
  | c :: rest =>
    if h : (matchUrlParen (c :: rest)).isSome then
      subUrlParen ((matchUrlParen (c :: rest)).get h)
    else c :: subUrlParen rest
termination_by l => l.length
decreasing_by
  · have := matchUrlParen_length (Option.some_get h).symm
    omega
  · simp

/-- `UpdateChecker._clean_description` (checkota.py lines 385-392). -/
def clean_description (text : List Char) : List Char :=
  pyStrip (subUrlParen (subTags (subBr (subNewlines text))))

/-- `UpdateChecker._tidy_title` (checkota.py lines 394-400): strip
surrounding whitespace only. -/
def tidy_title (text : List Char) : List Char := pyStrip text

end UpdateChecker

namespace UpdateChecker

/-- The dictionary type of `update_info` (checkota.py lines 334-342). -/
abbrev PyDict := List (List Char × PyVal)

/-- Python truthiness of a `PyVal` (used by `if update_info['found']:`,
checkota.py line 359, and by `update_info.get('found', False)`,
line 328). -/
def pyTruthy : PyVal → Bool
  | PyVal.none => false
  | PyVal.str s => !s.isEmpty
  | PyVal.bool b => b

def deviceKey : List Char := "device".data
def foundKey : List Char := "found".data
def timestampKey : List Char := "timestamp".data
def titleKey : List Char := "title".data
def descriptionKey : List Char := "description".data
def sizeKey : List Char := "size".data
def urlKey : List Char := "url".data

/-- `b'update_url'` (checkota.py line 348). -/
def updateUrlName : List Nat := asciiBytes "update_url"

/-- `b'https://android.googleapis.com/packages/ota'` (checkota.py line 348). -/
def otaNeedle : List Nat := asciiBytes "https://android.googleapis.com/packages/ota"

def updateTitleName : List Char := "update_title".data
def updateDescriptionName : List Char := "update_description".data
def updateSizeName : List Char := "update_size".data

/-- One name/value setting entry of the decoded checkin response
(`response.setting`, both fields `bytes`). -/
structure SettingEntry where
  name : List Nat
  value : List Nat
deriving DecidableEq

/-- The Pass-1 condition of checkota.py line 348:
`entry.name == b'update_url' or b'https://android.googleapis.com/packages/ota' in entry.value`. -/
def entryPass1Match (e : SettingEntry) : Bool :=
  e.name == updateUrlName || bytesContains e.value otaNeedle

/-- The initial `update_info` dictionary literal
(checkota.py lines 334-342); `timestamp` holds the wall-clock time of the
call, passed in explicitly as `now`. -/
def initUpdateInfo (config : Config) (now : List Char) : PyDict :=
  [(deviceKey, PyVal.str config.model),
   (foundKey, PyVal.bool false),
   (timestampKey, PyVal.str now),
   (titleKey, PyVal.none),
   (descriptionKey, PyVal.none),
   (sizeKey, PyVal.none),
   (urlKey, PyVal.none)]

/-- Pass 1 of `_parse_response` (checkota.py lines 344-356): scan for the
first matching entry; on a match, decode the value, store `url` then
`found = True` and break.  A `UnicodeDecodeError` while decoding the value
of a matching entry is caught (only a warning is printed) and the loop
continues with the next entry. -/
def pass1 (d : PyDict) : List SettingEntry → PyDict
  | [] => d
  | e :: rest =>
    if entryPass1Match e then
      if h : (utf8Decode e.value).isSome then
        dictSet (dictSet d urlKey (PyVal.str ((utf8Decode e.value).get h))) foundKey
          (PyVal.bool true)
      else pass1 d rest
    else pass1 d rest

/-- One iteration of Pass 2 of `_parse_response`
(checkota.py lines 360-375): decode name and value (skipping the entry if
either fails) and store the title / description / size metadata. -/
def pass2Step (d : PyDict) (e : SettingEntry) : PyDict :=
  if h : (utf8Decode e.name).isSome ∧ (utf8Decode e.value).isSome then
    let n := (utf8Decode e.name).get h.1
    let v := (utf8Decode e.value).get h.2
    if n == updateTitleName then dictSet d titleKey (PyVal.str (tidy_title v))
    else if n == updateDescriptionName then dictSet d descriptionKey (PyVal.str (clean_description v))
    else if n == updateSizeName then dictSet d sizeKey (PyVal.str v)
    else d
  else d

/-- `UpdateChecker._parse_response` (checkota.py lines 332-383): the
initial dictionary, Pass 1, then (only when an update URL was found)
Pass 2 over the full settings sequence.  The final "basic validation"
block (lines 377-381) only logs a warning and does not modify the
dictionary. -/
def parse_response (config : Config) (now : List Char) (settings : List SettingEntry) : PyDict :=
  let d := pass1 (initUpdateInfo config now) settings
  if pyTruthy ((dGet d foundKey).getD PyVal.none) then settings.foldl pass2Step d else d

/-- `has_update = update_info.get('found', False) and 'url' in update_info`
(checkota.py line 328). -/
def has_update (d : PyDict) : Bool :=
  pyTruthy ((dGet d foundKey).getD (PyVal.bool false)) && dContains d urlKey

/-- An entry that terminates Pass 1: it satisfies the Pass-1 condition and
its value decodes as UTF-8 (so that the `break` of line 351 is reached). -/
def pass1Settles (e : SettingEntry) : Bool :=
  entryPass1Match e && (utf8Decode e.value).isSome

end UpdateChecker

/-- Modelled from the spec: a message segment is independently well-formed
with respect to tag nesting when every tag opened within the segment is
also closed within that same segment; tags are recognised with the same
two patterns the source's tag-balance pass uses
(checkota.py lines 145-146). -/
def segmentTagClosed (s : List Char) : Bool :=
  (TelegramNotifier.findOpenTags s).all
    (fun t => (TelegramNotifier.findOpenTags s).count t ≤ (TelegramNotifier.findCloseTags s).count t)

/-- The store update performed by one run (checkota.py lines 629-640):
load the persisted profile-keyed mapping, set the single key of the
current profile to the record produced by this run, and save.  `load` and
`save` are modelled as the identity on the persisted mapping (the claim
concerns the mapping-level merge, not the JSON serialisation). -/
def storeRunMerge (prior : List (List Char × UpdateChecker.PyDict)) (profileName : List Char)
    (record : UpdateChecker.PyDict) : List (List Char × UpdateChecker.PyDict) :=
  dictSet prior profileName record

/-! ### Dictionary lemmas -/

theorem dGet_dictSet_self {α : Type} (d : List (List Char × α)) (k : List Char) (v : α) :
    dGet (dictSet d k v) k = some v := by
  induction d with
  | nil => simp [dictSet, dGet]
  | cons p rest ih =>
    by_cases h : (p.1 == k) = true
    · simp [dictSet, dGet, h]
    · simp [dictSet, dGet, h, ih]

theorem dGet_dictSet_ne {α : Type} {k' k : List Char} (d : List (List Char × α)) (v : α)
    (hne : k' ≠ k) : dGet (dictSet d k v) k' = dGet d k' := by
  have hkk : (k == k') = false := beq_eq_false_iff_ne.mpr (Ne.symm hne)
  induction d with
  | nil => simp [dictSet, dGet, hkk]
  | cons p rest ih =>
    by_cases h : (p.1 == k) = true
    · have hpk : p.1 = k := eq_of_beq h
      simp [dictSet, dGet, h, hkk, hpk]
    · by_cases h2 : (p.1 == k') = true
      · simp [dictSet, dGet, h, h2]
      · simp [dictSet, dGet, h, h2, ih]

/-! ### Pass-1 lemmas -/

namespace UpdateChecker

theorem pass1_of_find?_none {settings : List SettingEntry} {d : PyDict}
    (h : settings.find? pass1Settles = none) : pass1 d settings = d := by
  induction settings with
  | nil => rfl
  | cons e rest ih =>
    rw [List.find?_eq_none] at h
    have he : pass1Settles e = false := by
      have := h e (by simp)
      simpa using this
    have hrest : rest.find? pass1Settles = none := by
      rw [List.find?_eq_none]
      intro x hx
      exact h x (by simp [hx])
    simp only [pass1]
    by_cases hm : entryPass1Match e = true
    · have hdec : (utf8Decode e.value).isSome = false := by
        simp only [pass1Settles, Bool.and_eq_false_iff] at he
        rcases he with he | he
        · rw [hm] at he
          simp at he
        · exact he
      rw [if_pos hm, dif_neg (by simp [hdec])]
      exact ih hrest
    · rw [if_neg hm]
      exact ih hrest

theorem pass1_of_find?_some {settings : List SettingEntry} {e : SettingEntry}
    (h : settings.find? pass1Settles = some e) :
    ∃ v, utf8Decode e.value = some v ∧
      ∀ d : PyDict, pass1 d settings =
        dictSet (dictSet d urlKey (PyVal.str v)) foundKey (PyVal.bool true) := by
  induction settings with
  | nil => simp at h
  | cons e0 rest ih =>
    by_cases hc : pass1Settles e0 = true
    · rw [List.find?_cons_of_pos _ hc] at h
      have he : e = e0 := by simpa using h.symm
      subst he
      have hm : entryPass1Match e = true := by
        simp only [pass1Settles, Bool.and_eq_true] at hc
        exact hc.1
      have hs : (utf8Decode e.value).isSome = true := by
        simp only [pass1Settles, Bool.and_eq_true] at hc
        exact hc.2
      rcases Option.isSome_iff_exists.mp hs with ⟨v, hv⟩
      refine ⟨v, hv, fun d => ?_⟩
      simp only [pass1]
      rw [if_pos hm, dif_pos (by simp [hs])]
      congr 1
      congr 1
      simp [hv]
    · rw [List.find?_cons_of_neg _ (by simp [hc])] at h
      rcases ih h with ⟨v, hv, hall⟩
      refine ⟨v, hv, fun d => ?_⟩
      simp only [pass1]
      by_cases hm : entryPass1Match e0 = true
      · have hdec : (utf8Decode e0.value).isSome = false := by
          by_contra hx
          apply hc
          simp only [pass1Settles, Bool.and_eq_true]
          refine ⟨hm, ?_⟩
          simp only [Bool.not_eq_false] at hx
          exact hx
        rw [if_pos hm, dif_neg (by simp [hdec])]
        exact hall d
      · rw [if_neg hm]
        exact hall d

/-! ### Pass-2 frame lemmas -/

theorem dGet_pass2Step_ne {d : PyDict} {e : SettingEntry} {k : List Char}
    (h1 : k ≠ titleKey) (h2 : k ≠ descriptionKey) (h3 : k ≠ sizeKey) :
    dGet (pass2Step d e) k = dGet d k := by
  simp only [pass2Step]
  by_cases hd : (utf8Decode e.name).isSome ∧ (utf8Decode e.value).isSome
  · rw [dif_pos hd]
    by_cases ht : ((utf8Decode e.name).get hd.1 == updateTitleName) = true
    · rw [if_pos ht]
      exact dGet_dictSet_ne _ _ h1
    · rw [if_neg ht]
      by_cases hde : ((utf8Decode e.name).get hd.1 == updateDescriptionName) = true
      · rw [if_pos hde]
        exact dGet_dictSet_ne _ _ h2
      · rw [if_neg hde]
        by_cases hsz : ((utf8Decode e.name).get hd.1 == updateSizeName) = true
        · rw [if_pos hsz]
          exact dGet_dictSet_ne _ _ h3
        · rw [if_neg hsz]
  · rw [dif_neg hd]

theorem dGet_pass2_foldl_ne {settings : List SettingEntry} {k : List Char}
    (h1 : k ≠ titleKey) (h2 : k ≠ descriptionKey) (h3 : k ≠ sizeKey) :
    ∀ d : PyDict, dGet (settings.foldl pass2Step d) k = dGet d k := by
  induction settings with
  | nil => intro d; rfl
  | cons e rest ih =>
    intro d
    rw [List.foldl_cons, ih, dGet_pass2Step_ne h1 h2 h3]

/-! ### `parse_response` facts -/

theorem parse_response_of_find?_none (config : Config) (now : List Char)
    {settings : List SettingEntry} (h : settings.find? pass1Settles = none) :
    parse_response config now settings = initUpdateInfo config now := by
  simp only [parse_response, pass1_of_find?_none h]
  rw [if_neg (by simp [initUpdateInfo, dGet, deviceKey, foundKey, pyTruthy])]

theorem parse_response_of_find?_some (config : Config) (now : List Char)
    {settings : List SettingEntry} {e : SettingEntry}
    (h : settings.find? pass1Settles = some e) :
    ∃ v, utf8Decode e.value = some v ∧
      dGet (parse_response config now settings) urlKey = some (PyVal.str v) ∧
      dGet (parse_response config now settings) foundKey = some (PyVal.bool true) := by
  rcases pass1_of_find?_some h with ⟨v, hv, hall⟩
  refine ⟨v, hv, ?_⟩
  have hfound :
      dGet (pass1 (initUpdateInfo config now) settings) foundKey = some (PyVal.bool true) := by
    rw [hall]
    exact dGet_dictSet_self _ _ _
  have hurl : dGet (pass1 (initUpdateInfo config now) settings) urlKey = some (PyVal.str v) := by
    rw [hall, dGet_dictSet_ne _ _ (by decide), dGet_dictSet_self]
  simp only [parse_response]
  rw [if_pos (by rw [hfound]; rfl)]
  constructor
  · rw [dGet_pass2_foldl_ne (by decide) (by decide) (by decide), hurl]
  · rw [dGet_pass2_foldl_ne (by decide) (by decide) (by decide), hfound]

end UpdateChecker

/-! ### Agreement of two runs that differ only in the wall-clock time -/

namespace UpdateChecker

theorem dGet_init_agree (config : Config) (now1 now2 : List Char) {k : List Char}
    (h : k ≠ timestampKey) :
    dGet (initUpdateInfo config now1) k = dGet (initUpdateInfo config now2) k := by
  have hts : (timestampKey == k) = false := beq_eq_false_iff_ne.mpr (Ne.symm h)
  simp [initUpdateInfo, dGet, hts]

theorem pass1_agree (settings : List SettingEntry) :
    ∀ (d1 d2 : PyDict), (∀ k, k ≠ timestampKey → dGet d1 k = dGet d2 k) →
      ∀ k, k ≠ timestampKey → dGet (pass1 d1 settings) k = dGet (pass1 d2 settings) k := by
  induction settings with
  | nil => intro d1 d2 hag; exact hag
  | cons e rest ih =>
    intro d1 d2 hag k hk
    simp only [pass1]
    by_cases hm : entryPass1Match e = true
    · by_cases hd : (utf8Decode e.value).isSome = true
      · rw [if_pos hm, if_pos hm, dif_pos hd, dif_pos hd]
        by_cases hkf : k = foundKey
        · subst hkf
          rw [dGet_dictSet_self, dGet_dictSet_self]
        · rw [dGet_dictSet_ne _ _ hkf, dGet_dictSet_ne _ _ hkf]
          by_cases hku : k = urlKey
          · subst hku
            rw [dGet_dictSet_self, dGet_dictSet_self]
          · rw [dGet_dictSet_ne _ _ hku, dGet_dictSet_ne _ _ hku]
            exact hag k hk
      · have hd2 : ¬((utf8Decode e.value).isSome = true) := hd
        rw [if_pos hm, if_pos hm, dif_neg hd2, dif_neg hd2]
        exact ih d1 d2 hag k hk
    · rw [if_neg hm, if_neg hm]
      exact ih d1 d2 hag k hk

theorem pass2Step_agree {d1 d2 : PyDict} (hag : ∀ k, k ≠ timestampKey → dGet d1 k = dGet d2 k)
    (e : SettingEntry) :
    ∀ k, k ≠ timestampKey → dGet (pass2Step d1 e) k = dGet (pass2Step d2 e) k := by
  intro k hk
  simp only [pass2Step]
  by_cases hd : (utf8Decode e.name).isSome ∧ (utf8Decode e.value).isSome
  · rw [dif_pos hd, dif_pos hd]
    by_cases ht : ((utf8Decode e.name).get hd.1 == updateTitleName) = true
    · rw [if_pos ht, if_pos ht]
      by_cases hkt : k = titleKey
      · subst hkt
        rw [dGet_dictSet_self, dGet_dictSet_self]
      · rw [dGet_dictSet_ne _ _ hkt, dGet_dictSet_ne _ _ hkt]
        exact hag k hk
    · rw [if_neg ht, if_neg ht]
      by_cases hde : ((utf8Decode e.name).get hd.1 == updateDescriptionName) = true
      · rw [if_pos hde, if_pos hde]
        by_cases hkd : k = descriptionKey
        · subst hkd
          rw [dGet_dictSet_self, dGet_dictSet_self]
        · rw [dGet_dictSet_ne _ _ hkd, dGet_dictSet_ne _ _ hkd]
          exact hag k hk
      · rw [if_neg hde, if_neg hde]
        by_cases hsz : ((utf8Decode e.name).get hd.1 == updateSizeName) = true
        · rw [if_pos hsz, if_pos hsz]
          by_cases hks : k = sizeKey
          · subst hks
            rw [dGet_dictSet_self, dGet_dictSet_self]
          · rw [dGet_dictSet_ne _ _ hks, dGet_dictSet_ne _ _ hks]
            exact hag k hk
        · rw [if_neg hsz, if_neg hsz]
          exact hag k hk
  · rw [dif_neg hd, dif_neg hd]
    exact hag k hk

theorem pass2_foldl_agree (settings : List SettingEntry) :
    ∀ (d1 d2 : PyDict), (∀ k, k ≠ timestampKey → dGet d1 k = dGet d2 k) →
      ∀ k, k ≠ timestampKey →
        dGet (settings.foldl pass2Step d1) k = dGet (settings.foldl pass2Step d2) k := by
  induction settings with
  | nil => intro d1 d2 hag; exact hag
  | cons e rest ih =>
    intro d1 d2 hag k hk
    rw [List.foldl_cons, List.foldl_cons]
    exact ih _ _ (pass2Step_agree hag e) k hk

end UpdateChecker

/-! ### Claim C4 -/

def c4cfg : Config := Config.mk [] [] [] [] [] [] []
def c4now1 : List Char := "t1".data
def c4now2 : List Char := "t2".data

open UpdateChecker in
/-- C4 (counterexample): running the Update Extractor twice over the same
decoded response, at the two distinct wall-clock times recorded in the
`timestamp` field, yields different dictionaries, so the claim that the
two runs are "equal in every field, including timestamp" is false. -/
theorem c4_timestamp_differs :
    parse_response c4cfg c4now1 [] ≠ parse_response c4cfg c4now2 [] := by
  simp +decide [parse_response, pass1, initUpdateInfo, pyTruthy, dGet, deviceKey, foundKey,
    c4cfg, c4now1, c4now2]

open UpdateChecker in
/-- C4 (amended): the Update Extractor is a pure function of the decoded
response except for the `timestamp` field: two runs over the same decoded
response agree on every dictionary key other than `timestamp`. -/
theorem c4_parse_response_pure_except_timestamp (config : Config) (now1 now2 : List Char)
    (settings : List SettingEntry) (k : List Char) (hk : k ≠ timestampKey) :
    dGet (parse_response config now1 settings) k = dGet (parse_response config now2 settings) k := by
  have hp := pass1_agree settings _ _ (fun k hk => dGet_init_agree config now1 now2 hk)
  have hfound := hp foundKey (by decide)
  simp only [parse_response]
  rw [hfound]
  by_cases hc :
      pyTruthy ((dGet (pass1 (initUpdateInfo config now2) settings) foundKey).getD PyVal.none)
        = true
  · rw [if_pos hc, if_pos hc]
    exact pass2_foldl_agree settings _ _ hp k hk
  · rw [if_neg hc, if_neg hc]
    exact hp k hk

open UpdateChecker in
/-- C4 (witness): the amended theorem applied at a concrete input. -/
theorem c4_parse_response_pure_except_timestamp_witness :
    dGet (parse_response c4cfg c4now1 []) urlKey = dGet (parse_response c4cfg c4now2 []) urlKey :=
  c4_parse_response_pure_except_timestamp c4cfg c4now1 c4now2 [] urlKey (by decide)

/-! ### Claim C6 -/

open UpdateChecker in
/-- C6 (amended): whenever the `UpdateRecord` produced by the Update
Extractor has `found = True`, its `url` field is set to a string (it is
not `None`); that string is the decoded value of the matched entry and may
be empty when that value is empty. -/
theorem c6_found_implies_url_set (config : Config) (now : List Char)
    (settings : List SettingEntry)
    (h : dGet (parse_response config now settings) foundKey = some (PyVal.bool true)) :
    ∃ s, dGet (parse_response config now settings) urlKey = some (PyVal.str s) := by
  rcases hf : settings.find? pass1Settles with _ | e
  · exfalso
    rw [parse_response_of_find?_none config now hf] at h
    simp +decide [initUpdateInfo, dGet] at h
  · rcases parse_response_of_find?_some config now hf with ⟨v, _, hurl, _⟩
    exact ⟨v, hurl⟩

def c6cfg : Config := Config.mk [] [] [] [] [] [] []
def c6now : List Char := "T".data

open UpdateChecker in
/-- C6 (counterexample): a response whose only setting is named
`update_url` with an empty value yields `found = True` together with the
empty string as `url`, so the claim that `found = True` implies a
non-empty `url` is false. -/
theorem c6_empty_update_url_value :
    dGet (parse_response c6cfg c6now [SettingEntry.mk updateUrlName []]) foundKey
        = some (PyVal.bool true) ∧
      dGet (parse_response c6cfg c6now [SettingEntry.mk updateUrlName []]) urlKey
        = some (PyVal.str []) := by
  constructor <;>
    simp +decide [parse_response, pass1, pass2Step, initUpdateInfo, pyTruthy, entryPass1Match,
      updateUrlName, otaNeedle, asciiBytes, bytesContains, utf8Decode, utf8DecodeOne, dGet,
      dictSet, tidy_title, pyStrip, c6cfg, c6now]

open UpdateChecker in
/-- C6 (witness): the amended theorem applied at a concrete input. -/
theorem c6_found_implies_url_set_witness :
    ∃ s, dGet (parse_response c6cfg c6now [SettingEntry.mk updateUrlName (asciiBytes "x")]) urlKey
      = some (PyVal.str s) :=
  c6_found_implies_url_set c6cfg c6now [SettingEntry.mk updateUrlName (asciiBytes "x")]
    (by simp +decide [parse_response, pass1, pass2Step, initUpdateInfo, pyTruthy, entryPass1Match,
      updateUrlName, otaNeedle, asciiBytes, bytesContains, utf8Decode, utf8DecodeOne, dGet,
      dictSet, tidy_title, pyStrip, c6cfg, c6now])

/-! ### Claim C7 -/

open UpdateChecker in
/-- C7 (amended): in Pass 1 the first entry that matches the Pass-1
condition AND whose value decodes as UTF-8 determines the recorded `url`
(its decoded value) and sets `found = true`, and no later entry alters the
`url`; a matching entry whose value fails to decode is skipped and the
scan continues.  When no entry matches the Pass-1 condition at all, the
returned record has `found = false` and `title`, `description`, `size`,
`url` all `None`. -/
theorem c7_first_decodable_match_wins (config : Config) (now : List Char)
    (settings : List SettingEntry) :
    (∀ e, settings.find? pass1Settles = some e →
      ∃ v, utf8Decode e.value = some v ∧
        dGet (parse_response config now settings) urlKey = some (PyVal.str v) ∧
        dGet (parse_response config now settings) foundKey = some (PyVal.bool true)) ∧
    ((∀ e ∈ settings, entryPass1Match e = false) →
      dGet (parse_response config now settings) foundKey = some (PyVal.bool false) ∧
      dGet (parse_response config now settings) titleKey = some PyVal.none ∧
      dGet (parse_response config now settings) descriptionKey = some PyVal.none ∧
      dGet (parse_response config now settings) sizeKey = some PyVal.none ∧
      dGet (parse_response config now settings) urlKey = some PyVal.none) := by
  constructor
  · intro e hf
    exact parse_response_of_find?_some config now hf
  · intro hnone
    have hfind : settings.find? pass1Settles = none := by
      rw [List.find?_eq_none]
      intro e he
      simp [pass1Settles, hnone e he]
    rw [parse_response_of_find?_none config now hfind]
    refine ⟨?_, ?_, ?_, ?_, ?_⟩ <;> simp +decide [initUpdateInfo, dGet]

def c7cfg : Config := Config.mk [] [] [] [] [] [] []
def c7now : List Char := "T".data

/-- The first entry of the C7 counterexample: its value contains the
update-distribution URL prefix (so the Pass-1 condition matches) but ends
in the byte `0xFF`, which is invalid UTF-8. -/
def c7entry1 : UpdateChecker.SettingEntry :=
  UpdateChecker.SettingEntry.mk (asciiBytes "x") (UpdateChecker.otaNeedle ++ [255])

/-- The second entry of the C7 counterexample. -/
def c7entry2 : UpdateChecker.SettingEntry :=
  UpdateChecker.SettingEntry.mk UpdateChecker.updateUrlName (asciiBytes "zzz")

open UpdateChecker in
/-- C7 (counterexample): the first entry matches the Pass-1 condition, yet
the recorded `url` comes from the second entry, because the first entry's
value raises `UnicodeDecodeError`, the exception is caught, and the scan
continues; so "the first setting entry whose name equals update_url or
whose value contains the URL prefix determines the recorded url" is false
as stated. -/
theorem c7_undecodable_first_match :
    entryPass1Match c7entry1 = true ∧ utf8Decode c7entry1.value = none ∧
      dGet (parse_response c7cfg c7now [c7entry1, c7entry2]) urlKey
        = some (PyVal.str ("zzz".data)) := by
  refine ⟨by decide, ?_, ?_⟩ <;>
    simp +decide [parse_response, pass1, pass2Step, initUpdateInfo, pyTruthy, entryPass1Match,
      updateUrlName, otaNeedle, asciiBytes, bytesContains, utf8Decode, utf8DecodeOne, dGet,
      dictSet, tidy_title, pyStrip, c7cfg, c7now, c7entry1, c7entry2]

open UpdateChecker in
/-- C7 (witness): the amended theorem applied at concrete inputs, one for
each conjunct. -/
theorem c7_first_decodable_match_wins_witness :
    (∃ v, utf8Decode c7entry2.value = some v ∧
      dGet (parse_response c7cfg c7now [c7entry2]) urlKey = some (PyVal.str v) ∧
      dGet (parse_response c7cfg c7now [c7entry2]) foundKey = some (PyVal.bool true)) ∧
    (dGet (parse_response c7cfg c7now []) foundKey = some (PyVal.bool false) ∧
      dGet (parse_response c7cfg c7now []) titleKey = some PyVal.none ∧
      dGet (parse_response c7cfg c7now []) descriptionKey = some PyVal.none ∧
      dGet (parse_response c7cfg c7now []) sizeKey = some PyVal.none ∧
      dGet (parse_response c7cfg c7now []) urlKey = some PyVal.none) :=
  ⟨(c7_first_decodable_match_wins c7cfg c7now [c7entry2]).1 c7entry2
      (by simp +decide [List.find?, pass1Settles, entryPass1Match, updateUrlName, otaNeedle,
        asciiBytes, bytesContains, utf8Decode, utf8DecodeOne, c7entry2]),
    (c7_first_decodable_match_wins c7cfg c7now []).2 (by simp)⟩

/-! ### Claim C8 -/

/-- C8: for every configuration, including field values that themselves
contain `/` or `:`, `get_fingerprint` returns exactly the literal
concatenation
`oem / product / device : android_version / build_tag / incremental :user/release-keys`,
whose length is the sum of the six field lengths plus the 23 characters
contributed by the five separators and the fixed suffix. -/
theorem c8_get_fingerprint_template (c : Config) :
    c.get_fingerprint
        = c.oem ++ ['/'] ++ c.product ++ ['/'] ++ c.device ++ [':'] ++ c.android_version
          ++ ['/'] ++ c.build_tag ++ ['/'] ++ c.incremental ++ [':'] ++ ("user/release-keys").data
      ∧ c.get_fingerprint.length
        = c.oem.length + c.product.length + c.device.length + c.android_version.length
          + c.build_tag.length + c.incremental.length + 23 := by
  constructor
  · simp [Config.get_fingerprint]
  · simp [Config.get_fingerprint]
    omega

/-! ### Claim C9 -/

open UpdateChecker in
/-- C9: one run's store update sets exactly the key of the current
profile; every other profile's previously stored entry is unchanged. -/
theorem c9_store_merge_frame (prior : List (List Char × PyDict)) (profileName : List Char)
    (record : PyDict) (k : List Char) (hk : k ≠ profileName) :
    dGet (storeRunMerge prior profileName record) k = dGet prior k ∧
      dGet (storeRunMerge prior profileName record) profileName = some record := by
  exact ⟨dGet_dictSet_ne _ _ hk, dGet_dictSet_self _ _ _⟩

def c9priorA : List Char := "profileA".data
def c9priorB : List Char := "profileB".data

open UpdateChecker in
/-- C9 (witness): the theorem applied at a concrete store. -/
theorem c9_store_merge_frame_witness :
    dGet (storeRunMerge [(c9priorB, [])] c9priorA [(UpdateChecker.foundKey, PyVal.bool true)])
        c9priorB = dGet [(c9priorB, ([] : PyDict))] c9priorB ∧
      dGet (storeRunMerge [(c9priorB, [])] c9priorA [(UpdateChecker.foundKey, PyVal.bool true)])
        c9priorA = some [(UpdateChecker.foundKey, PyVal.bool true)] :=
  c9_store_merge_frame [(c9priorB, [])] c9priorA [(UpdateChecker.foundKey, PyVal.bool true)]
    c9priorB (by decide)

/-! ### Claim C10 -/

open UpdateChecker in
/-- C10: the dictionary returned by `_parse_response` always contains the
key `url` (so the conjunct `'url' in update_info` of
`check_for_updates` is always true), the `found` value is always a
boolean, and the `has_update` flag equals exactly that boolean. -/
theorem c10_has_update_eq_found (config : Config) (now : List Char)
    (settings : List SettingEntry) :
    dContains (parse_response config now settings) urlKey = true ∧
    ∃ b, dGet (parse_response config now settings) foundKey = some (PyVal.bool b) ∧
      has_update (parse_response config now settings) = b := by
  rcases hf : settings.find? pass1Settles with _ | e
  · rw [parse_response_of_find?_none config now hf]
    refine ⟨by simp +decide [initUpdateInfo, dGet, dContains], false, ?_, ?_⟩
    · simp +decide [initUpdateInfo, dGet]
    · simp +decide [has_update, initUpdateInfo, dGet, dContains, pyTruthy]
  · rcases parse_response_of_find?_some config now hf with ⟨v, _, hurl, hfound⟩
    refine ⟨by simp [dContains, hurl], true, hfound, ?_⟩
    simp [has_update, hfound, dContains, hurl, pyTruthy]

/-! ### Claim C5 -/

def c5input : List Char := "Fix A<br>Fix B<br/>(see https://x)".data
def c5actual : List Char := "Fix A\nFix B\n(see https://x)".data
def c5claimed : List Char := "Fix A\nFix B".data
def c5input2 : List Char := "Fix A<br>Fix B<br/>(https://x)".data

/-- C5 (counterexample): cleaning `"Fix A<br>Fix B<br/>(see https://x)"`
yields `"Fix A\nFix B\n(see https://x)"`, not the claimed
`"Fix A\nFix B"`: the URL-stripping pattern `\s*\(http[s]?://\S+\)?`
requires the `(` to be followed immediately by `http`, so the
parenthetical `(see https://x)` is not removed. -/
theorem c5_paren_url_not_stripped :
    UpdateChecker.clean_description c5input = c5actual ∧ c5actual ≠ c5claimed := by
  constructor
  · simp +decide [UpdateChecker.clean_description, UpdateChecker.subNewlines, UpdateChecker.subBr,
      UpdateChecker.matchBr, UpdateChecker.subTags, UpdateChecker.subUrlParen,
      UpdateChecker.matchUrlParen, UpdateChecker.matchUrlParenFinish, UpdateChecker.matchHttpTail,
      pyStrip, List.dropWhile_cons, List.takeWhile_cons, c5input, c5actual]
  · decide

/-- C5 (amended): description cleaning applies, in order, newline
stripping, `<br>`/`<br/>` conversion to newlines, removal of all remaining
markup tags, and removal of trailing parenthesized URL references whose
parenthesis is immediately followed by the URL; the input
`"Fix A<br>Fix B<br/>(see https://x)"` is cleaned to
`"Fix A\nFix B\n(see https://x)"` (the parenthetical does not start with
the URL and is kept), while `"Fix A<br>Fix B<br/>(https://x)"` is cleaned
to `"Fix A\nFix B"`. -/
theorem c5_clean_description_amended :
    UpdateChecker.clean_description c5input = c5actual ∧
      UpdateChecker.clean_description c5input2 = c5claimed := by
  constructor <;>
    simp +decide [UpdateChecker.clean_description, UpdateChecker.subNewlines, UpdateChecker.subBr,
      UpdateChecker.matchBr, UpdateChecker.subTags, UpdateChecker.subUrlParen,
      UpdateChecker.matchUrlParen, UpdateChecker.matchUrlParenFinish, UpdateChecker.matchHttpTail,
      pyStrip, List.dropWhile_cons, List.takeWhile_cons, c5input, c5input2, c5actual, c5claimed]

/-! ### Splitter lemmas -/

namespace TelegramNotifier

theorem splitBlocks_ne_nil (l : List Char) : splitBlocks l ≠ [] := by
  induction l using splitBlocks.induct with
  | case1 => simp [splitBlocks]
  | case2 c => simp [splitBlocks]
  | case3 c1 c2 rest h ih => simp [splitBlocks, h]
  | case4 c1 c2 rest h hnil ih => exact absurd hnil ih
  | case5 c1 c2 rest h b bs hs ih =>
    simp only [splitBlocks, if_neg h, hs]
    simp

theorem splitBlocks_cons_of (c1 c2 : Char) (rest : List Char) (hne : ¬(c1 = '\n' ∧ c2 = '\n'))
    {b : List Char} {bs : List (List Char)} (h : splitBlocks (c2 :: rest) = b :: bs) :
    splitBlocks (c1 :: c2 :: rest) = (c1 :: b) :: bs := by
  simp only [splitBlocks, if_neg hne]
  split
  · rename_i heq
    rw [heq] at h
    simp at h
  · rename_i b' bs' heq
    rw [heq] at h
    injection h with h1 h2
    subst h1
    subst h2
    rfl

theorem splitBlocks_no_nl {l : List Char} (h : ∀ c ∈ l, c ≠ '\n') : splitBlocks l = [l] := by
  induction l using splitBlocks.induct with
  | case1 => rfl
  | case2 c => rfl
  | case3 c1 c2 rest hc ih => exact absurd hc.1 (h c1 (by simp))
  | case4 c1 c2 rest hc hnil ih => exact absurd hnil (splitBlocks_ne_nil _)
  | case5 c1 c2 rest hc b bs hs ih =>
    have h2 : splitBlocks (c2 :: rest) = [c2 :: rest] :=
      ih (fun c hc2 => h c (by simp at hc2 ⊢; tauto))
    rw [h2] at hs
    injection hs with hb hbs
    subst hb
    subst hbs
    exact splitBlocks_cons_of c1 c2 rest hc h2

theorem splitBlocks_append_sep {b : List Char} (hb : ∀ c ∈ b, c ≠ '\n') (r : List Char) :
    splitBlocks (b ++ '\n' :: '\n' :: r) = b :: splitBlocks r := by
  induction b with
  | nil => simp [splitBlocks]
  | cons c t ih =>
    have hc : c ≠ '\n' := hb c (by simp)
    have ht : ∀ x ∈ t, x ≠ '\n' := fun x hx => hb x (by simp [hx])
    have ihe := ih ht
    cases t with
    | nil =>
      simp only [List.nil_append] at ihe
      simpa using splitBlocks_cons_of c '\n' ('\n' :: r) (by simp [hc]) ihe
    | cons c2 t2 =>
      have hc2 : c2 ≠ '\n' := ht c2 (by simp)
      simp only [List.cons_append] at ihe ⊢
      exact splitBlocks_cons_of c c2 (t2 ++ '\n' :: '\n' :: r) (by simp [hc]) ihe

/-- The total length contributed by a list of blocks when each is followed
by the two-character separator. -/
def sumLen (bs : List (List Char)) : Nat := (bs.map (fun b => b.length + 2)).sum

theorem sumLen_splitBlocks (m : List Char) : sumLen (splitBlocks m) = m.length + 2 := by
  induction m using splitBlocks.induct with
  | case1 => simp [splitBlocks, sumLen]
  | case2 c => simp [splitBlocks, sumLen]
  | case3 c1 c2 rest h ih =>
    obtain ⟨h1, h2⟩ := h
    subst h1
    subst h2
    simp only [splitBlocks, if_pos (And.intro rfl rfl)]
    simp [sumLen] at ih ⊢
    omega
  | case4 c1 c2 rest h hnil ih => exact absurd hnil (splitBlocks_ne_nil _)
  | case5 c1 c2 rest h b bs hs ih =>
    rw [splitBlocks_cons_of c1 c2 rest h hs]
    rw [hs] at ih
    simp [sumLen] at ih ⊢
    omega

theorem dropWhile_of_head_false {α : Type} {p : α → Bool} {l : List α}
    (h : ∀ c ∈ l, p c = false) : l.dropWhile p = l := by
  cases l with
  | nil => rfl
  | cons a t => rw [List.dropWhile_cons, if_neg (by simp [h a (by simp)])]

theorem rstrip_length_le (s : List Char) : (rstrip s).length ≤ s.length := by
  have := length_dropWhile_le pyIsSpace s.reverse
  simpa [rstrip] using this

theorem rstrip_of_nonspace {l : List Char} (h : ∀ c ∈ l, pyIsSpace c = false) : rstrip l = l := by
  have h2 : ∀ c ∈ l.reverse, pyIsSpace c = false := fun c hc => h c (by simpa using hc)
  simp [rstrip, dropWhile_of_head_false h2]

theorem rstrip_append_sepNl (l : List Char) : rstrip (l ++ sepNl) = rstrip l := by
  simp +decide [rstrip, sepNl, List.reverse_append, List.dropWhile_cons]

theorem packBlocks_parts_le (limit : Nat) :
    ∀ (bs : List (List Char)) (parts : List (List Char)) (current : List Char),
      current ≠ [] → parts.length + 1 ≤ (packBlocks limit bs parts current).length := by
  intro bs
  induction bs with
  | nil =>
    intro parts current h
    have hie : current.isEmpty = false := by simp [List.isEmpty_iff, h]
    simp [packBlocks, hie]
  | cons b0 bs ih =>
    intro parts current h
    have hie : current.isEmpty = false := by simp [List.isEmpty_iff, h]
    simp only [packBlocks]
    split
    · have h2 := ih (parts ++ [rstrip current]) (b0 ++ sepNl) (by simp [sepNl])
      simp only [hie, Bool.false_eq_true, if_false]
      simp at h2 ⊢
      omega
    · exact ih parts (current ++ b0 ++ sepNl) (by simp [sepNl])

theorem packBlocks_mem (limit : Nat) (allB : List (List Char)) :
    ∀ (bs : List (List Char)) (parts : List (List Char)) (current : List Char),
      (∀ x ∈ bs, x ∈ allB) →
      (∀ p ∈ parts, p.length ≤ limit ∨ ∃ b ∈ allB, p = rstrip b) →
      (current = [] ∨ current.length ≤ limit ∨ ∃ b ∈ allB, current = b ++ sepNl) →
      ∀ p ∈ packBlocks limit bs parts current,
        p.length ≤ limit ∨ ∃ b ∈ allB, p = rstrip b := by
  intro bs
  induction bs with
  | nil =>
    intro parts current hbs hparts hcur p hp
    simp only [packBlocks] at hp
    by_cases hie : current.isEmpty = true
    · rw [if_pos hie] at hp
      exact hparts p hp
    · rw [if_neg hie] at hp
      rw [List.mem_append] at hp
      rcases hp with hp | hp
      · exact hparts p hp
      · simp only [List.mem_singleton] at hp
        subst hp
        rcases hcur with h | h | ⟨b, hb, hbe⟩
        · exact absurd h (by simpa [List.isEmpty_iff] using hie)
        · exact Or.inl (le_trans (rstrip_length_le _) h)
        · exact Or.inr ⟨b, hb, by rw [hbe, rstrip_append_sepNl]⟩
  | cons b0 bs ih =>
    intro parts current hbs hparts hcur p hp
    simp only [packBlocks] at hp
    have hb0 : b0 ∈ allB := hbs b0 (by simp)
    have hbs' : ∀ x ∈ bs, x ∈ allB := fun x hx => hbs x (by simp [hx])
    split at hp
    · refine ih _ _ hbs' ?_ (Or.inr (Or.inr ⟨b0, hb0, rfl⟩)) p hp
      intro q hq
      by_cases hie : current.isEmpty = true
      · rw [if_pos hie] at hq
        exact hparts q hq
      · rw [if_neg hie] at hq
        rw [List.mem_append] at hq
        rcases hq with hq | hq
        · exact hparts q hq
        · simp only [List.mem_singleton] at hq
          subst hq
          rcases hcur with h | h | ⟨b, hb, hbe⟩
          · exact absurd h (by simpa [List.isEmpty_iff] using hie)
          · exact Or.inl (le_trans (rstrip_length_le _) h)
          · exact Or.inr ⟨b, hb, by rw [hbe, rstrip_append_sepNl]⟩
    · rename_i hc
      refine ih _ _ hbs' hparts (Or.inr (Or.inl (Nat.le_of_not_lt hc))) p hp

theorem packBlocks_two (limit : Nat) :
    ∀ (bs : List (List Char)) (current : List Char), bs ≠ [] → current ≠ [] →
      limit < current.length + sumLen bs → 2 ≤ (packBlocks limit bs [] current).length := by
  intro bs
  induction bs with
  | nil => intro current h; exact absurd rfl h
  | cons b0 bs ih =>
    intro current _ hcur hsum
    have hie : current.isEmpty = false := by simp [List.isEmpty_iff, hcur]
    simp only [packBlocks]
    split
    · simp only [hie, Bool.false_eq_true, if_false]
      have h2 := packBlocks_parts_le limit bs ([] ++ [rstrip current]) (b0 ++ sepNl)
        (by simp [sepNl])
      simpa using h2
    · rename_i hc
      have hlen : (current ++ b0 ++ sepNl).length ≤ limit := Nat.le_of_not_lt hc
      have hlen2 : (current ++ b0 ++ sepNl).length = current.length + b0.length + 2 := by
        simp [sepNl]
        omega
      cases bs with
      | nil =>
        exfalso
        simp [sumLen] at hsum
        omega
      | cons b1 bs1 =>
        refine ih _ (by simp) (by simp [sepNl]) ?_
        have hsl : sumLen (b0 :: b1 :: bs1) = b0.length + 2 + sumLen (b1 :: bs1) := by
          simp [sumLen]
        rw [hsl] at hsum
        omega

end TelegramNotifier

namespace TelegramNotifier

theorem tagLoop_length (o : List (List Char)) (ps : List (List Char)) :
    (tagLoop o ps).length = ps.length := by
  induction o, ps using tagLoop.induct with
  | case1 o => simp [tagLoop]
  | case2 o part => simp [tagLoop]
  | case3 o part next rest otags ih =>
    have ho : otags = updateOpenTags o (findOpenTags part) (findCloseTags part) := rfl
    rw [ho] at ih
    simp only [tagLoop]
    simp only [List.length_cons] at ih ⊢
    omega

theorem tagLoop_getD (o : List (List Char)) (ps : List (List Char)) :
    ∀ i, i < ps.length →
      ∃ (ts1 ts2 : List (List Char)), (tagLoop o ps).getD i [] =
        (ts1.map openTagStr).flatten ++ ps.getD i [] ++ (ts2.map closeTagStr).flatten := by
  induction o, ps using tagLoop.induct with
  | case1 o =>
    intro i h
    simp at h
  | case2 o part =>
    intro i h
    have hi : i = 0 := by
      simp at h
      omega
    subst hi
    refine ⟨[], [], ?_⟩
    simp [tagLoop]
  | case3 o part next rest otags ih =>
    have ho : otags = updateOpenTags o (findOpenTags part) (findCloseTags part) := rfl
    rw [ho] at ih
    intro i h
    cases i with
    | zero =>
      refine ⟨[], (updateOpenTags o (findOpenTags part) (findCloseTags part)).reverse, ?_⟩
      simp [tagLoop]
    | succ j =>
      have hj : j < (((List.map openTagStr
          (updateOpenTags o (findOpenTags part) (findCloseTags part))).flatten ++ next)
            :: rest).length := by
        simp at h ⊢
        omega
      rcases ih j hj with ⟨ts1, ts2, hts⟩
      cases j with
      | zero =>
        refine ⟨ts1 ++ updateOpenTags o (findOpenTags part) (findCloseTags part), ts2, ?_⟩
        have hstep : (tagLoop o (part :: next :: rest)).getD 1 []
            = (tagLoop (updateOpenTags o (findOpenTags part) (findCloseTags part))
                (((List.map openTagStr
                  (updateOpenTags o (findOpenTags part) (findCloseTags part))).flatten ++ next)
                    :: rest)).getD 0 [] := by
          simp [tagLoop]
        rw [hstep, hts]
        simp [List.map_append, List.flatten_append, List.append_assoc]
      | succ t =>
        refine ⟨ts1, ts2, ?_⟩
        have hstep : (tagLoop o (part :: next :: rest)).getD (t + 2) []
            = (tagLoop (updateOpenTags o (findOpenTags part) (findCloseTags part))
                (((List.map openTagStr
                  (updateOpenTags o (findOpenTags part) (findCloseTags part))).flatten ++ next)
                    :: rest)).getD (t + 1) [] := by
          simp [tagLoop]
        rw [hstep, hts]
        simp [List.getD_cons_succ]

theorem tagLoop_singleton (o : List (List Char)) (part : List Char) :
    tagLoop o [part] = [part] := by
  simp [tagLoop]

theorem tagLoop_pair (o : List (List Char)) (p q : List Char) :
    tagLoop o [p, q]
      = [p ++ ((updateOpenTags o (findOpenTags p) (findCloseTags p)).reverse.map
            closeTagStr).flatten,
         ((updateOpenTags o (findOpenTags p) (findCloseTags p)).map openTagStr).flatten ++ q] := by
  simp [tagLoop]

end TelegramNotifier

namespace TelegramNotifier

theorem findOpenTags_no_lt {l : List Char} (h : ∀ c ∈ l, c ≠ '<') : findOpenTags l = [] := by
  induction l with
  | nil => simp [findOpenTags]
  | cons c rest ih =>
    have hc : ¬(c = '<') := h c (by simp)
    simp only [findOpenTags, if_neg hc]
    exact ih (fun x hx => h x (by simp [hx]))

theorem findOpenTags_append_no_lt {l1 : List Char} (h : ∀ c ∈ l1, c ≠ '<') (l2 : List Char) :
    findOpenTags (l1 ++ l2) = findOpenTags l2 := by
  induction l1 with
  | nil => simp
  | cons c t ih =>
    have hc : ¬(c = '<') := h c (by simp)
    rw [List.cons_append]
    simp only [findOpenTags, if_neg hc]
    exact ih (fun x hx => h x (by simp [hx]))

theorem findCloseTags_no_lt {l : List Char} (h : ∀ c ∈ l, c ≠ '<') : findCloseTags l = [] := by
  induction l with
  | nil => simp [findCloseTags]
  | cons c1 rest ih =>
    cases rest with
    | nil => simp [findCloseTags]
    | cons c2 rest2 =>
      have hc : ¬(c1 = '<' ∧ c2 = '/') := fun hx => (h c1 (by simp)) hx.1
      simp only [findCloseTags, if_neg hc]
      exact ih (fun x hx => h x (by simp [hx]))

theorem findCloseTags_append_no_lt {l1 : List Char} (h : ∀ c ∈ l1, c ≠ '<') (l2 : List Char) :
    findCloseTags (l1 ++ l2) = findCloseTags l2 := by
  induction l1 with
  | nil => simp
  | cons c1 t ih =>
    have hc1 : c1 ≠ '<' := h c1 (by simp)
    have ht : ∀ x ∈ t, x ≠ '<' := fun x hx => h x (by simp [hx])
    cases t with
    | nil =>
      cases l2 with
      | nil => simp [findCloseTags]
      | cons c2 r2 =>
        rw [List.cons_append, List.nil_append]
        simp only [findCloseTags]
        rw [if_neg (by intro hx; exact hc1 hx.1)]
    | cons c2 t2 =>
      simp only [List.cons_append]
      have ihe := ih ht
      simp only [List.cons_append] at ihe
      simp only [findCloseTags]
      rw [if_neg (by intro hx; exact hc1 hx.1)]
      exact ihe

theorem packedParts_single_overlong {m : List Char} (hn : ∀ c ∈ m, c ≠ '\n')
    (hns : ∀ c ∈ m, pyIsSpace c = false) (hlen : MAX_MESSAGE_LENGTH < m.length) :
    packedParts MAX_MESSAGE_LENGTH m = [m] := by
  unfold packedParts
  rw [splitBlocks_no_nl hn]
  have hie : (m ++ sepNl).isEmpty = false := by
    simp [List.isEmpty_iff, sepNl]
  simp only [packBlocks, List.isEmpty_nil, if_true, List.nil_append, hie,
    Bool.false_eq_true, if_false]
  rw [rstrip_append_sepNl, rstrip_of_nonspace hns]
  split
  · rfl
  · rfl

theorem split_message_single_overlong {m : List Char} (hn : ∀ c ∈ m, c ≠ '\n')
    (hns : ∀ c ∈ m, pyIsSpace c = false) (hlen : MAX_MESSAGE_LENGTH < m.length) :
    split_message m = [m] := by
  unfold split_message
  rw [if_neg (by omega), packedParts_single_overlong hn hns hlen, tagLoop_singleton]

end TelegramNotifier

/-! ### Claim C3 -/

/-- C3 (counterexample): a message of 4001 characters consisting of a
single blank-line-delimited block (no `\n` at all) is returned as exactly
ONE segment, refuting "every message of 4001 characters is returned as at
least two segments". -/
theorem c3_single_block_4001_one_segment :
    (List.replicate 4001 'a').length = 4001 ∧
      (TelegramNotifier.split_message (List.replicate 4001 'a')).length = 1 := by
  constructor
  · rw [List.length_replicate]
  · rw [TelegramNotifier.split_message_single_overlong]
    · rfl
    · intro c hc
      rw [List.eq_of_mem_replicate hc]
      decide
    · intro c hc
      rw [List.eq_of_mem_replicate hc]
      decide
    · rw [List.length_replicate]
      decide

/-- C3 (amended): a message of exactly 4000 characters is returned as
exactly one segment; a message of 4001 characters whose blank-line split
produces at least two blocks is returned as at least two segments (a
4001-character single-block message is instead returned as one over-long
segment, as the counterexample shows). -/
theorem c3_boundary_amended (m : List Char) :
    (m.length = 4000 → TelegramNotifier.split_message m = [m]) ∧
    (m.length = 4001 → 2 ≤ (TelegramNotifier.splitBlocks m).length →
      2 ≤ (TelegramNotifier.split_message m).length) := by
  constructor
  · intro h
    unfold TelegramNotifier.split_message
    rw [if_pos (by simp [TelegramNotifier.MAX_MESSAGE_LENGTH]; omega)]
  · intro hlen hblocks
    unfold TelegramNotifier.split_message
    rw [if_neg (by simp [TelegramNotifier.MAX_MESSAGE_LENGTH]; omega)]
    rw [TelegramNotifier.tagLoop_length]
    unfold TelegramNotifier.packedParts
    rcases hsb : TelegramNotifier.splitBlocks m with _ | ⟨b0, bs⟩
    · exact absurd hsb (TelegramNotifier.splitBlocks_ne_nil m)
    · cases bs with
      | nil =>
        rw [hsb] at hblocks
        simp at hblocks
      | cons b1 bs1 =>
        have hsum : TelegramNotifier.sumLen (b0 :: b1 :: bs1) = 4003 := by
          have h2 := TelegramNotifier.sumLen_splitBlocks m
          rw [hsb] at h2
          omega
        have hstep : TelegramNotifier.packBlocks TelegramNotifier.MAX_MESSAGE_LENGTH
            (b0 :: b1 :: bs1) [] []
            = TelegramNotifier.packBlocks TelegramNotifier.MAX_MESSAGE_LENGTH (b1 :: bs1) []
                (b0 ++ TelegramNotifier.sepNl) := by
          simp only [TelegramNotifier.packBlocks]
          split
          · simp
          · simp
        rw [hstep]
        refine TelegramNotifier.packBlocks_two _ _ _ (by simp) (by simp [TelegramNotifier.sepNl])
          ?_
        have h3 : (b0 ++ TelegramNotifier.sepNl).length = b0.length + 2 := by
          simp [TelegramNotifier.sepNl]
        have h4 : TelegramNotifier.sumLen (b0 :: b1 :: bs1)
            = b0.length + 2 + TelegramNotifier.sumLen (b1 :: bs1) := by
          simp [TelegramNotifier.sumLen]
        simp only [TelegramNotifier.MAX_MESSAGE_LENGTH]
        omega

def c3witA : List Char := List.replicate 4000 'a'
def c3witB : List Char := 'a' :: '\n' :: '\n' :: List.replicate 3998 'b'

/-- C3 (witness): the amended theorem applied at concrete inputs: a
4000-character message yields one segment; a 4001-character two-block
message yields at least two. -/
theorem c3_boundary_witness :
    TelegramNotifier.split_message c3witA = [c3witA] ∧
      2 ≤ (TelegramNotifier.split_message c3witB).length :=
  ⟨(c3_boundary_amended c3witA).1 (by rw [show c3witA = List.replicate 4000 'a' from rfl,
      List.length_replicate]),
   (c3_boundary_amended c3witB).2
     (by simp only [c3witB, List.length_cons, List.length_replicate])
     (by
       have h1 : TelegramNotifier.splitBlocks c3witB
           = ['a'] :: TelegramNotifier.splitBlocks (List.replicate 3998 'b') := by
         have h2 := @TelegramNotifier.splitBlocks_append_sep ['a']
           (by
             intro c hc
             simp at hc
             subst hc
             decide)
           (List.replicate 3998 'b')
         simpa only [c3witB, List.cons_append, List.nil_append] using h2
       rw [h1]
       have h3 : 0 < (TelegramNotifier.splitBlocks (List.replicate 3998 'b')).length :=
         List.length_pos.mpr (TelegramNotifier.splitBlocks_ne_nil _)
       simp only [List.length_cons]
       omega)⟩

/-! ### Claim C1 -/

namespace TelegramNotifier

theorem isEmpty_append_sepNl (l : List Char) : (l ++ sepNl).isEmpty = false := by
  cases hb : (l ++ sepNl).isEmpty
  · rfl
  · rw [List.isEmpty_iff] at hb
    exact absurd hb (by simp [sepNl])

theorem findOpenTags_lt_b_gt (T : List Char) :
    findOpenTags ('<' :: 'b' :: '>' :: T) = ['b'] :: findOpenTags T := by
  simp +decide [findOpenTags, List.takeWhile_cons, List.dropWhile_cons]

theorem findCloseTags_lt_b_gt (T : List Char) :
    findCloseTags ('<' :: 'b' :: '>' :: T) = findCloseTags ('>' :: T) := by
  simp +decide [findCloseTags]

end TelegramNotifier

def c1block1 : List Char := '<' :: 'b' :: '>' :: List.replicate 3995 'a'
def c1block2 : List Char := List.replicate 10 'b'
def c1msg : List Char := c1block1 ++ '\n' :: '\n' :: c1block2

theorem c1block1_length : c1block1.length = 3998 := by
  simp only [c1block1, List.length_cons, List.length_replicate]

theorem c1block2_length : c1block2.length = 10 := by
  simp only [c1block2, List.length_replicate]

theorem c1block1_no_nl : ∀ c ∈ c1block1, c ≠ '\n' := by
  intro c hc
  simp only [c1block1, List.mem_cons] at hc
  rcases hc with h | h | h | h
  · subst h; decide
  · subst h; decide
  · subst h; decide
  · rw [List.eq_of_mem_replicate h]; decide

theorem c1block1_nonspace : ∀ c ∈ c1block1, pyIsSpace c = false := by
  intro c hc
  simp only [c1block1, List.mem_cons] at hc
  rcases hc with h | h | h | h
  · subst h; decide
  · subst h; decide
  · subst h; decide
  · rw [List.eq_of_mem_replicate h]; decide

theorem c1block2_no_nl : ∀ c ∈ c1block2, c ≠ '\n' := by
  intro c hc
  rw [List.eq_of_mem_replicate (by simpa [c1block2] using hc : c ∈ List.replicate 10 'b')]
  decide

theorem c1block2_nonspace : ∀ c ∈ c1block2, pyIsSpace c = false := by
  intro c hc
  rw [List.eq_of_mem_replicate (by simpa [c1block2] using hc : c ∈ List.replicate 10 'b')]
  decide

theorem c1msg_blocks : TelegramNotifier.splitBlocks c1msg = [c1block1, c1block2] := by
  have h1 := TelegramNotifier.splitBlocks_append_sep c1block1_no_nl ('\n' :: '\n' :: c1block2)
  rw [show c1msg = c1block1 ++ '\n' :: '\n' :: c1block2 from rfl]
  rw [TelegramNotifier.splitBlocks_append_sep c1block1_no_nl c1block2,
    TelegramNotifier.splitBlocks_no_nl c1block2_no_nl]

theorem c1msg_packed :
    TelegramNotifier.packedParts TelegramNotifier.MAX_MESSAGE_LENGTH c1msg
      = [c1block1, c1block2] := by
  unfold TelegramNotifier.packedParts
  rw [c1msg_blocks]
  have hc1 : ¬(TelegramNotifier.MAX_MESSAGE_LENGTH
      < (c1block1 ++ TelegramNotifier.sepNl).length) := by
    simp only [List.length_append, c1block1_length, TelegramNotifier.sepNl, List.length_cons,
      List.length_nil]
    decide
  have hc2 : TelegramNotifier.MAX_MESSAGE_LENGTH
      < ((c1block1 ++ TelegramNotifier.sepNl) ++ c1block2 ++ TelegramNotifier.sepNl).length := by
    simp only [List.length_append, c1block1_length, c1block2_length, TelegramNotifier.sepNl,
      List.length_cons, List.length_nil]
    decide
  have hr1 : rstrip (c1block1 ++ TelegramNotifier.sepNl) = c1block1 := by
    rw [TelegramNotifier.rstrip_append_sepNl]
    exact TelegramNotifier.rstrip_of_nonspace c1block1_nonspace
  have hr2 : rstrip (c1block2 ++ TelegramNotifier.sepNl) = c1block2 := by
    rw [TelegramNotifier.rstrip_append_sepNl]
    exact TelegramNotifier.rstrip_of_nonspace c1block2_nonspace
  simp only [TelegramNotifier.packBlocks, List.nil_append]
  rw [if_neg hc1, if_pos hc2]
  simp only [TelegramNotifier.isEmpty_append_sepNl, Bool.false_eq_true, if_false,
    List.nil_append, hr1, hr2]
  rfl

theorem c1msg_length : c1msg.length = 4010 := by
  simp only [c1msg, List.length_append, List.length_cons, c1block1_length, c1block2_length]

/-- C1 (counterexample): for the 4010-character message `c1msg`, every
blank-line-delimited block has length at most 4000 (3998 and 10), yet the
first returned segment has length 4002 > 4000: the tag-balance pass
appended `</b>` to a segment already at 3998 characters.  This refutes
"appending synthetic closing tags ... never pushes any other segment past
the ceiling". -/
theorem c1_tag_pass_exceeds_limit :
    TelegramNotifier.MAX_MESSAGE_LENGTH < c1msg.length ∧
      (∀ b ∈ TelegramNotifier.splitBlocks c1msg,
        b.length ≤ TelegramNotifier.MAX_MESSAGE_LENGTH) ∧
      (TelegramNotifier.split_message c1msg).map List.length = [4002, 13] := by
  refine ⟨by rw [c1msg_length]; decide, ?_, ?_⟩
  · intro b hb
    rw [c1msg_blocks] at hb
    rcases List.mem_cons.mp hb with hb | hb
    · rw [hb, c1block1_length]; decide
    · rw [List.mem_singleton] at hb
      rw [hb, c1block2_length]
      decide
  · have hopen : TelegramNotifier.findOpenTags c1block1 = [['b']] := by
      rw [show c1block1 = '<' :: 'b' :: '>' :: List.replicate 3995 'a' from rfl,
        TelegramNotifier.findOpenTags_lt_b_gt,
        @TelegramNotifier.findOpenTags_no_lt (List.replicate 3995 'a')
          (by intro c hc; rw [List.eq_of_mem_replicate hc]; decide)]
    have hclose : TelegramNotifier.findCloseTags c1block1 = [] := by
      rw [show c1block1 = '<' :: 'b' :: '>' :: List.replicate 3995 'a' from rfl,
        TelegramNotifier.findCloseTags_lt_b_gt,
        @TelegramNotifier.findCloseTags_no_lt ('>' :: List.replicate 3995 'a')
          (by
            intro c hc
            rcases List.mem_cons.mp hc with h | h
            · subst h; decide
            · rw [List.eq_of_mem_replicate h]; decide)]
    have hsm : TelegramNotifier.split_message c1msg
        = TelegramNotifier.tagLoop [] [c1block1, c1block2] := by
      unfold TelegramNotifier.split_message
      rw [if_neg (by rw [c1msg_length]; decide), c1msg_packed]
    rw [hsm, TelegramNotifier.tagLoop_pair, hopen, hclose]
    have hupd : TelegramNotifier.updateOpenTags [] [['b']] [] = [['b']] := by decide
    rw [hupd]
    simp only [List.map_cons, List.map_nil, List.length_append, c1block1_length, c1block2_length,
      List.reverse_cons, List.reverse_nil, List.nil_append, List.flatten,
      TelegramNotifier.closeTagStr, TelegramNotifier.openTagStr, List.length_cons,
      List.append_nil, List.length_nil]

/-- C1 (amended): every segment produced by the block-packing phase has
length at most 4000, except a segment that is (the right-stripped form of)
a single blank-line-delimited block whose own packing already exceeds the
ceiling; each final segment returned by `_split_message` equals synthetic
re-opening tags, followed by the corresponding packed segment, followed by
synthetic closing tags — so the tag-balance pass may push a segment past
the 4000 ceiling by the length of the synthetic tags it adds (the original
claim's "never pushes any other segment past the ceiling" is refuted by
the counterexample). -/
theorem c1_split_message_segment_bound_amended (m : List Char) :
    (m.length ≤ TelegramNotifier.MAX_MESSAGE_LENGTH → TelegramNotifier.split_message m = [m]) ∧
    (∀ i, i < (TelegramNotifier.split_message m).length →
      TelegramNotifier.MAX_MESSAGE_LENGTH < m.length →
      ∃ (ts1 ts2 : List (List Char)),
        (TelegramNotifier.split_message m).getD i []
            = (ts1.map TelegramNotifier.openTagStr).flatten
              ++ (TelegramNotifier.packedParts TelegramNotifier.MAX_MESSAGE_LENGTH m).getD i []
              ++ (ts2.map TelegramNotifier.closeTagStr).flatten ∧
        (((TelegramNotifier.packedParts TelegramNotifier.MAX_MESSAGE_LENGTH m).getD i []).length
            ≤ TelegramNotifier.MAX_MESSAGE_LENGTH ∨
          ∃ b ∈ TelegramNotifier.splitBlocks m,
            (TelegramNotifier.packedParts TelegramNotifier.MAX_MESSAGE_LENGTH m).getD i []
              = rstrip b)) := by
  constructor
  · intro h
    unfold TelegramNotifier.split_message
    rw [if_pos h]
  · intro i hi hlen
    have hneg : ¬(m.length ≤ TelegramNotifier.MAX_MESSAGE_LENGTH) := by omega
    have hsm : TelegramNotifier.split_message m
        = TelegramNotifier.tagLoop []
            (TelegramNotifier.packedParts TelegramNotifier.MAX_MESSAGE_LENGTH m) := by
      unfold TelegramNotifier.split_message
      rw [if_neg hneg]
    rw [hsm] at hi ⊢
    have hplen :
        i < (TelegramNotifier.packedParts TelegramNotifier.MAX_MESSAGE_LENGTH m).length := by
      rw [TelegramNotifier.tagLoop_length] at hi
      exact hi
    rcases TelegramNotifier.tagLoop_getD []
        (TelegramNotifier.packedParts TelegramNotifier.MAX_MESSAGE_LENGTH m) i hplen with
      ⟨ts1, ts2, hts⟩
    refine ⟨ts1, ts2, hts, ?_⟩
    have hmem : (TelegramNotifier.packedParts TelegramNotifier.MAX_MESSAGE_LENGTH m).getD i []
        ∈ TelegramNotifier.packedParts TelegramNotifier.MAX_MESSAGE_LENGTH m := by
      rw [List.getD_eq_getElem _ _ hplen]
      exact List.getElem_mem hplen
    exact TelegramNotifier.packBlocks_mem TelegramNotifier.MAX_MESSAGE_LENGTH
      (TelegramNotifier.splitBlocks m) (TelegramNotifier.splitBlocks m) [] []
      (fun x hx => hx) (by simp) (Or.inl rfl) _ hmem

def c1wit : List Char := List.replicate 4001 'a'

/-- C1 (witness): the amended theorem applied at a concrete over-long
message and segment index 0. -/
theorem c1_split_message_segment_bound_witness :
    ∃ (ts1 ts2 : List (List Char)),
      (TelegramNotifier.split_message c1wit).getD 0 []
          = (ts1.map TelegramNotifier.openTagStr).flatten
            ++ (TelegramNotifier.packedParts TelegramNotifier.MAX_MESSAGE_LENGTH c1wit).getD 0 []
            ++ (ts2.map TelegramNotifier.closeTagStr).flatten ∧
      (((TelegramNotifier.packedParts TelegramNotifier.MAX_MESSAGE_LENGTH c1wit).getD 0 []).length
          ≤ TelegramNotifier.MAX_MESSAGE_LENGTH ∨
        ∃ b ∈ TelegramNotifier.splitBlocks c1wit,
          (TelegramNotifier.packedParts TelegramNotifier.MAX_MESSAGE_LENGTH c1wit).getD 0 []
            = rstrip b) :=
  (c1_split_message_segment_bound_amended c1wit).2 0
    (by
      rw [TelegramNotifier.split_message_single_overlong
        (by
          intro c hc
          have hc2 : c ∈ List.replicate 4001 'a' := hc
          rw [List.eq_of_mem_replicate hc2]
          decide)
        (by
          intro c hc
          have hc2 : c ∈ List.replicate 4001 'a' := hc
          rw [List.eq_of_mem_replicate hc2]
          decide)
        (by rw [show c1wit = List.replicate 4001 'a' from rfl, List.length_replicate]; decide)]
      decide)
    (by rw [show c1wit = List.replicate 4001 'a' from rfl, List.length_replicate]; decide)

/-! ### Claim C2 -/

namespace TelegramNotifier

theorem findOpenTags_c2prefix (T : List Char) :
    findOpenTags
        ('<' :: 'b' :: '>' :: 'x' :: '<' :: '/' :: 'b' :: '>' :: '<' :: 'b' :: '>' :: T)
      = ['b'] :: ['b'] :: findOpenTags T := by
  simp +decide [findOpenTags, List.takeWhile_cons, List.dropWhile_cons]

theorem findCloseTags_c2prefix (T : List Char) :
    findCloseTags
        ('<' :: 'b' :: '>' :: 'x' :: '<' :: '/' :: 'b' :: '>' :: '<' :: 'b' :: '>' :: T)
      = ['b'] :: findCloseTags ('>' :: T) := by
  simp +decide [findCloseTags, List.takeWhile_cons, List.dropWhile_cons]

end TelegramNotifier

def c2block1 : List Char :=
  '<' :: 'b' :: '>' :: 'x' :: '<' :: '/' :: 'b' :: '>' :: '<' :: 'b' :: '>'
    :: List.replicate 3985 'a'

def c2block2 : List Char := 'b' :: '<' :: '/' :: 'b' :: '>' :: []

def c2msg : List Char := c2block1 ++ '\n' :: '\n' :: c2block2

theorem c2block1_length : c2block1.length = 3996 := by
  simp only [c2block1, List.length_cons, List.length_replicate]

theorem c2block1_chars : ∀ c ∈ c2block1, c ≠ '\n' ∧ pyIsSpace c = false := by
  intro c hc
  simp only [c2block1, List.mem_cons] at hc
  rcases hc with h|h|h|h|h|h|h|h|h|h|h|h
  · subst h; exact ⟨by decide, by decide⟩
  · subst h; exact ⟨by decide, by decide⟩
  · subst h; exact ⟨by decide, by decide⟩
  · subst h; exact ⟨by decide, by decide⟩
  · subst h; exact ⟨by decide, by decide⟩
  · subst h; exact ⟨by decide, by decide⟩
  · subst h; exact ⟨by decide, by decide⟩
  · subst h; exact ⟨by decide, by decide⟩
  · subst h; exact ⟨by decide, by decide⟩
  · subst h; exact ⟨by decide, by decide⟩
  · subst h; exact ⟨by decide, by decide⟩
  · rw [List.eq_of_mem_replicate h]; exact ⟨by decide, by decide⟩

theorem c2block2_chars : ∀ c ∈ c2block2, c ≠ '\n' ∧ pyIsSpace c = false := by
  intro c hc
  simp only [c2block2, List.mem_cons] at hc
  rcases hc with h|h|h|h|h|h
  · subst h; exact ⟨by decide, by decide⟩
  · subst h; exact ⟨by decide, by decide⟩
  · subst h; exact ⟨by decide, by decide⟩
  · subst h; exact ⟨by decide, by decide⟩
  · subst h; exact ⟨by decide, by decide⟩
  · simp at h

theorem c2msg_blocks : TelegramNotifier.splitBlocks c2msg = [c2block1, c2block2] := by
  rw [show c2msg = c2block1 ++ '\n' :: '\n' :: c2block2 from rfl]
  rw [TelegramNotifier.splitBlocks_append_sep (fun c hc => (c2block1_chars c hc).1) c2block2,
    TelegramNotifier.splitBlocks_no_nl (fun c hc => (c2block2_chars c hc).1)]

theorem c2msg_packed :
    TelegramNotifier.packedParts TelegramNotifier.MAX_MESSAGE_LENGTH c2msg
      = [c2block1, c2block2] := by
  unfold TelegramNotifier.packedParts
  rw [c2msg_blocks]
  have hc1 : ¬(TelegramNotifier.MAX_MESSAGE_LENGTH
      < (c2block1 ++ TelegramNotifier.sepNl).length) := by
    simp only [List.length_append, c2block1_length, TelegramNotifier.sepNl, List.length_cons,
      List.length_nil]
    decide
  have hc2 : TelegramNotifier.MAX_MESSAGE_LENGTH
      < ((c2block1 ++ TelegramNotifier.sepNl) ++ c2block2 ++ TelegramNotifier.sepNl).length := by
    simp only [List.length_append, c2block1_length, c2block2, TelegramNotifier.sepNl,
      List.length_cons, List.length_nil]
    decide
  have hr1 : rstrip (c2block1 ++ TelegramNotifier.sepNl) = c2block1 := by
    rw [TelegramNotifier.rstrip_append_sepNl]
    exact TelegramNotifier.rstrip_of_nonspace (fun c hc => (c2block1_chars c hc).2)
  have hr2 : rstrip (c2block2 ++ TelegramNotifier.sepNl) = c2block2 := by
    rw [TelegramNotifier.rstrip_append_sepNl]
    exact TelegramNotifier.rstrip_of_nonspace (fun c hc => (c2block2_chars c hc).2)
  simp only [TelegramNotifier.packBlocks, List.nil_append]
  rw [if_neg hc1, if_pos hc2]
  simp only [TelegramNotifier.isEmpty_append_sepNl, Bool.false_eq_true, if_false,
    List.nil_append, hr1, hr2]
  rfl

theorem c2block1_openTags : TelegramNotifier.findOpenTags c2block1 = [['b'], ['b']] := by
  rw [show c2block1 = '<' :: 'b' :: '>' :: 'x' :: '<' :: '/' :: 'b' :: '>' :: '<' :: 'b' :: '>'
      :: List.replicate 3985 'a' from rfl,
    TelegramNotifier.findOpenTags_c2prefix,
    @TelegramNotifier.findOpenTags_no_lt (List.replicate 3985 'a')
      (by intro c hc; rw [List.eq_of_mem_replicate hc]; decide)]

theorem c2block1_closeTags : TelegramNotifier.findCloseTags c2block1 = [['b']] := by
  rw [show c2block1 = '<' :: 'b' :: '>' :: 'x' :: '<' :: '/' :: 'b' :: '>' :: '<' :: 'b' :: '>'
      :: List.replicate 3985 'a' from rfl,
    TelegramNotifier.findCloseTags_c2prefix,
    @TelegramNotifier.findCloseTags_no_lt ('>' :: List.replicate 3985 'a')
      (by
        intro c hc
        rcases List.mem_cons.mp hc with h | h
        · subst h; decide
        · rw [List.eq_of_mem_replicate h]; decide)]

theorem c2block2_openTags : TelegramNotifier.findOpenTags c2block2 = [] := by
  simp +decide [c2block2, TelegramNotifier.findOpenTags, List.takeWhile_cons,
    List.dropWhile_cons]

theorem c2block2_closeTags : TelegramNotifier.findCloseTags c2block2 = [['b']] := by
  simp +decide [c2block2, TelegramNotifier.findCloseTags, List.takeWhile_cons,
    List.dropWhile_cons]

theorem c2msg_split :
    TelegramNotifier.split_message c2msg = [c2block1, c2block2] := by
  have hlen : c2msg.length = 4003 := by
    simp only [c2msg, List.length_append, List.length_cons, c2block1_length, c2block2]
    rfl
  unfold TelegramNotifier.split_message
  rw [if_neg (by rw [hlen]; decide), c2msg_packed, TelegramNotifier.tagLoop_pair,
    c2block1_openTags, c2block1_closeTags]
  have hupd : TelegramNotifier.updateOpenTags [] [['b'], ['b']] [['b']] = [] := by decide
  rw [hupd]
  simp

theorem c2msg_openTags : TelegramNotifier.findOpenTags c2msg = [['b'], ['b']] := by
  rw [show c2msg = '<' :: 'b' :: '>' :: 'x' :: '<' :: '/' :: 'b' :: '>' :: '<' :: 'b' :: '>'
      :: (List.replicate 3985 'a' ++ '\n' :: '\n' :: c2block2) from rfl,
    TelegramNotifier.findOpenTags_c2prefix,
    @TelegramNotifier.findOpenTags_append_no_lt (List.replicate 3985 'a')
      (by intro c hc; rw [List.eq_of_mem_replicate hc]; decide)]
  simp +decide [c2block2, TelegramNotifier.findOpenTags, List.takeWhile_cons,
    List.dropWhile_cons]

theorem c2msg_closeTags : TelegramNotifier.findCloseTags c2msg = [['b'], ['b']] := by
  rw [show c2msg = '<' :: 'b' :: '>' :: 'x' :: '<' :: '/' :: 'b' :: '>' :: '<' :: 'b' :: '>'
      :: (List.replicate 3985 'a' ++ '\n' :: '\n' :: c2block2) from rfl,
    TelegramNotifier.findCloseTags_c2prefix,
    show '>' :: (List.replicate 3985 'a' ++ '\n' :: '\n' :: c2block2)
        = ('>' :: List.replicate 3985 'a') ++ ('\n' :: '\n' :: c2block2) from
      (List.cons_append _ _ _).symm,
    @TelegramNotifier.findCloseTags_append_no_lt ('>' :: List.replicate 3985 'a')
      (by
        intro c hc
        rcases List.mem_cons.mp hc with h | h
        · subst h; decide
        · rw [List.eq_of_mem_replicate h]; decide)]
  simp +decide [c2block2, TelegramNotifier.findCloseTags, List.takeWhile_cons,
    List.dropWhile_cons]

/-- C2 (failing input): the message `c2msg` is itself balanced (its opening
and closing `b` tags pair up), yet `_split_message` returns its first
segment containing an opening `<b>` that is never closed within the
segment, because the tag tracker records an opening tag as still open only
when NO closing tag of the same name occurs anywhere in the same part —
here the part contains `<b>x</b><b>…`, so the second `<b>` is wrongly
treated as closed and no `</b>` is appended. -/
theorem c2_tag_balance_ill_formed_segment :
    segmentTagClosed c2msg = true ∧
      (TelegramNotifier.split_message c2msg).map segmentTagClosed = [false, true] := by
  constructor
  · unfold segmentTagClosed
    rw [c2msg_openTags, c2msg_closeTags]
    decide
  · rw [c2msg_split]
    simp only [List.map_cons, List.map_nil]
    have h1 : segmentTagClosed c2block1 = false := by
      unfold segmentTagClosed
      rw [c2block1_openTags, c2block1_closeTags]
      decide
    have h2 : segmentTagClosed c2block2 = true := by
      unfold segmentTagClosed
      rw [c2block2_openTags, c2block2_closeTags]
      decide
    rw [h1, h2]
